import Mathlib

/-!
Verification of the units-prototype ZK token-transfer system.

This file gives a shallow embedding of the system's core:
* the off-circuit Merkle accumulator of scripts/utils.mjs
  (buildEmptyTree, updateLeaf, treeRoot, merklePath) over the BN254
  scalar field, with the Poseidon hash kept abstract as a function
  parameter;
* the TokenValidationService.validate step and the token-api transfer
  pipeline ordering;
* the constraint systems of circuits/transfer.circom,
  circuits/nft_transfer.circom and the generic state transfer circuit
  (MerkleRoot template, Num2Bits / LessThan from circomlib, the
  Transfer and NFTTransfer transition constraints);
* the createStateLeaf helper of the generic state transfer script.

Theorems at the end settle the round-trip, validation, and circuit
claims against these embeddings.
-/

/-- The BN254 (alt_bn128) scalar-field prime: the native field of the
circom circuits and of circomlibjs Poseidon. -/
def p : Nat := 21888242871839275222246405745257275088548364400416034343698204186575808495617

/-- Field elements: the universal value type for leaves, hashes and
circuit signals. -/
abbrev F : Type := ZMod p

instance : Fact (1 < p) := ⟨by norm_num [p]⟩

instance : NeZero p := ⟨by norm_num [p]⟩

/-! ### Merkle accumulator mirror (scripts/utils.mjs)

The hash is abstract: every definition takes the 2-ary Poseidon
`H : F → F → F` as a parameter. -/

/-- One level-up step of tree building: hash adjacent pairs.
Mirrors the inner loop of buildEmptyTree:
for (let i=0;i<prev.length;i+=2) cur.push(pHash2(prev[i], prev[i+1])). -/
def hashPairs (H : F → F → F) : List F → List F
  | a :: b :: t => H a b :: hashPairs H t
  | _ => []

/-- All layers of a depth-d tree grown from a given leaf row:
layer 0 is the row, layer k+1 hashes the pairs of layer k. -/
def buildLayers (H : F → F → F) : Nat → List F → List (List F)
  | 0, l => [l]
  | d + 1, l => l :: buildLayers H d (hashPairs H l)

/-- buildEmptyTree(depth) of utils.mjs: layer 0 is 2^depth zero leaves,
upper layers are precomputed from zeros. -/
def buildEmptyTree (H : F → F → F) (depth : Nat) : List (List F) :=
  buildLayers H depth (List.replicate (2 ^ depth) 0)

/-- treeRoot(layers) of utils.mjs: layers[layers.length-1][0]. -/
def treeRoot (layers : List (List F)) : F :=
  (layers.getD (layers.length - 1) []).getD 0 0

/-- The ancestor-recomputation loop of updateLeaf: for d = 1..top,
parentIdx = idx/2, layers[d][parentIdx] = H(layers[d-1][2*parentIdx],
layers[d-1][2*parentIdx+1]), idx = parentIdx.  prev is the already
rewritten layer d-1. -/
def updateLoop (H : F → F → F) (prev : List F) (idx : Nat) :
    List (List F) → List (List F)
  | [] => []
  | cur :: rest =>
    let parentIdx := idx / 2
    let left := prev.getD (2 * parentIdx) 0
    let right := prev.getD (2 * parentIdx + 1) 0
    let cur2 := cur.set parentIdx (H left right)
    cur2 :: updateLoop H cur2 parentIdx rest

/-- updateLeaf(layers, index, leaf) of utils.mjs: set layers[0][index]
to leaf, then recompute the ancestors with updateLoop.  (List.set is
in-range array assignment; the JS out-of-bounds behaviour is modelled
separately by updateLeafE below.) -/
def updateLeaf (H : F → F → F) (layers : List (List F)) (index : Nat)
    (leaf : F) : List (List F) :=
  match layers with
  | [] => []
  | l0 :: rest =>
    let l0' := l0.set index leaf
    l0' :: updateLoop H l0' index rest

/-- merklePath(layers, index) of utils.mjs: walk from the leaf level
to the level below the root; at each level record the sibling node and
the bit isRight = idx % 2 (as a field element), then ascend. -/
def merklePath (layers : List (List F)) (index : Nat) : List F × List F :=
  match layers with
  | [] => ([], [])
  | [_] => ([], [])
  | l :: rest =>
    let isRight := index % 2
    let sibIdx := if isRight = 1 then index - 1 else index + 1
    let rec2 := merklePath rest (index / 2)
    (l.getD sibIdx 0 :: rec2.1, (isRight : F) :: rec2.2)

/-- The accumulator combine rule: H(node, sibling) at a level whose
path bit is 0, H(sibling, node) where it is 1.  Replaying a path
against a leaf with this rule is the round-trip check of the spec. -/
def replayPath (H : F → F → F) : F → List F → List F → F
  | cur, s :: ss, b :: bs =>
    replayPath H (if b = 0 then H cur s else H s cur) ss bs
  | cur, _, _ => cur

/-- An accumulator obtained from buildEmptyTree(depth) followed by a
sequence of updateLeaf calls (index, leaf value), in order. -/
def applyUpdates (H : F → F → F) (depth : Nat) (us : List (Nat × F)) :
    List (List F) :=
  us.foldl (fun acc u => updateLeaf H acc u.1 u.2) (buildEmptyTree H depth)

/-- The leaf row those same updates produce on a plain array. -/
def leavesAfter (depth : Nat) (us : List (Nat × F)) : List F :=
  us.foldl (fun l u => l.set u.1 u.2) (List.replicate (2 ^ depth) 0)

/-! ### JavaScript out-of-range semantics for updateLeaf

updateLeaf performs no index check.  A JS assignment layers[0][index]
with index beyond the array length extends the array, leaving holes
(undefined) in between; a later read of a hole yields undefined, and
circomlibjs Poseidon raises a type error when coercing undefined to a
field element (BigInt conversion).  The following model makes those
JS semantics explicit so that error behaviour can be stated. -/

/-- Runtime failures the JS updateLeaf could surface.  indexOutOfRange
is the failure the spec postulates; typeError is the BigInt coercion
failure raised by hashing an undefined array slot. -/
inductive JsError where
  | typeError
  | indexOutOfRange
deriving DecidableEq, Repr

/-- JS array write a[i] = v: in-range writes replace, out-of-range
writes extend the array with holes (none) up to index i. -/
def jsSet (l : List (Option F)) (i : Nat) (v : F) : List (Option F) :=
  if i < l.length then l.set i (some v)
  else l ++ List.replicate (i - l.length) none ++ [some v]

/-- JS array read a[i]: undefined (none) beyond the end or at a hole. -/
def jsGet (l : List (Option F)) (i : Nat) : Option F :=
  l.getD i none

/-- pHash2 applied to possibly-undefined operands: circomlibjs
Poseidon fails with a type error on undefined. -/
def pHash2E (H : F → F → F) : Option F → Option F → Except JsError F
  | some a, some b => .ok (H a b)
  | _, _ => .error .typeError

/-- The updateLeaf ancestor loop under JS semantics, propagating the
first runtime failure. -/
def updateLoopE (H : F → F → F) (prev : List (Option F)) (idx : Nat) :
    List (List (Option F)) → Except JsError (List (List (Option F)))
  | [] => .ok []
  | cur :: rest => do
    let parentIdx := idx / 2
    let h ← pHash2E H (jsGet prev (2 * parentIdx)) (jsGet prev (2 * parentIdx + 1))
    let cur2 := jsSet cur parentIdx h
    let rest2 ← updateLoopE H cur2 parentIdx rest
    .ok (cur2 :: rest2)

/-- updateLeaf under JS semantics: the level-0 write always succeeds
(extending the array if needed); failures can only arise while
recomputing ancestors. -/
def updateLeafE (H : F → F → F) (layers : List (List (Option F)))
    (index : Nat) (leaf : F) : Except JsError (List (List (Option F))) :=
  match layers with
  | [] => .ok []
  | l0 :: rest => do
    let l0' := jsSet l0 index leaf
    let rest2 ← updateLoopE H l0' index rest
    .ok (l0' :: rest2)

/-- View a fully-defined accumulator through the JS Option lens. -/
def toOptLayers (layers : List (List F)) : List (List (Option F)) :=
  layers.map (fun l => l.map some)

/-! ### Token validation and transfer pipeline
(scripts/services/zk-proof-service.mjs TokenValidationService /
TransferService, scripts/token-api.mjs transfer) -/

/-- TOKEN_TYPES: FUNGIBLE = 0, NFT = 1, ATTRIBUTE = 2, ESCROW = 3.
Kept as the raw integer tag the source branches on. -/
def TOKEN_TYPES_FUNGIBLE : Nat := 0

def TOKEN_TYPES_NFT : Nat := 1

def TOKEN_TYPES_ATTRIBUTE : Nat := 2

def TOKEN_TYPES_ESCROW : Nat := 3

/-- The token.state object: the fields validate and
calculateStateChanges read.  JS numbers are modelled as integers. -/
structure TokenState where
  state : Int
  level : Int := 0
  power : Int := 0
  rarity : Int := 0
  escrow_provider : Int := 0
  escrow_status : Int := 0
deriving DecidableEq, Repr

/-- A token record as kept by the TokenManager. -/
structure Token where
  id : String
  type : Nat
  state : TokenState
deriving DecidableEq, Repr

/-- transferParams: an object with an optional amount (and optional
escrow provider); transferParams.amount || 0 reads as getD 0. -/
structure TransferParams where
  amount : Option Int := none
  escrow_provider : Option Int := none
deriving DecidableEq, Repr

/-- The distinct throw sites of TokenValidationService.validate. -/
inductive ValidationError where
  | partiesRequired
  | samePartyError
  | nonPositiveAmount
  | insufficientBalance
  | nftNotOwned
  | attributeNotOwned
  | escrowNotOwned
  | activeEscrow
  | unknownTokenType
deriving DecidableEq, Repr

/-- TokenValidationService.validate(token, from, to, transferParams):
basic checks, then a switch on token.type.  Fungible: amount must be
positive and at most the token's state (balance); NFT / attribute /
escrow: the token state must be 1 (owned), and escrow additionally
must not be in active escrow.  An empty account id is JS-falsy. -/
def validate (token : Token) (sender receiver : String)
    (params : TransferParams) : Except ValidationError Bool :=
  if sender = "" ∨ receiver = "" then .error .partiesRequired
  else if sender = receiver then .error .samePartyError
  else
    match token.type with
    | 0 =>
      let amount := params.amount.getD 0
      if amount ≤ 0 then .error .nonPositiveAmount
      else if token.state.state < amount then .error .insufficientBalance
      else .ok true
    | 1 =>
      if token.state.state ≠ 1 then .error .nftNotOwned else .ok true
    | 2 =>
      if token.state.state ≠ 1 then .error .attributeNotOwned else .ok true
    | 3 =>
      if token.state.state ≠ 1 then .error .escrowNotOwned
      else if token.state.escrow_status = 1 then .error .activeEscrow
      else .ok true
    | _ => .error .unknownTokenType

/-- TransferService.calculateStateChanges: per-type state transition
applied to copies of the sender/receiver state objects. -/
def calculateStateChanges (tokenType : Nat) (senderState receiverState : TokenState)
    (params : TransferParams) : TokenState × TokenState :=
  match tokenType with
  | 0 =>
    let amount := params.amount.getD 0
    ({ senderState with state := senderState.state - amount },
     { receiverState with state := receiverState.state + amount })
  | 1 =>
    ({ senderState with state := 0 }, { receiverState with state := 1 })
  | 2 =>
    ({ senderState with state := 0, level := 0, power := 0, rarity := 0 },
     { receiverState with
        state := 1
        level := senderState.level
        power := senderState.power
        rarity := senderState.rarity })
  | 3 =>
    ({ senderState with state := 0 },
     { receiverState with
        state := 1
        escrow_provider := params.escrow_provider.getD 0 })
  | _ => (senderState, receiverState)

/-- The transaction log assembled by TransferService.initiateTransfer
(the fields later steps consume). -/
structure TxLog where
  tokenId : String
  tokenType : Nat
  sender : String
  receiver : String
  transferParams : TransferParams
  stateBeforeSender : TokenState
  stateBeforeReceiver : TokenState
  stateAfterSender : TokenState
  stateAfterReceiver : TokenState

/-- TransferService.initiateTransfer: snapshot token.state for both
parties, then fill stateAfter from calculateStateChanges. -/
def initiateTransfer (token : Token) (sender receiver : String)
    (params : TransferParams) : TxLog :=
  let after := calculateStateChanges token.type token.state token.state params
  { tokenId := token.id
    tokenType := token.type
    sender := sender
    receiver := receiver
    transferParams := params
    stateBeforeSender := token.state
    stateBeforeReceiver := token.state
    stateAfterSender := after.1
    stateAfterReceiver := after.2 }

/-- Failure modes of the token-api transfer pipeline. -/
inductive TransferError where
  | tokenNotFound
  | validationFailed (e : ValidationError)
  | proofFailed
deriving DecidableEq, Repr

/-- The transfer pipeline of scripts/token-api.mjs in step order:
look the token up, validate, initiate the transfer, then hand the
transaction log to ZK proof generation (abstracted as the function
argument prove, which stands for all circuit and proving work). -/
def transferP {Proof : Type} (getToken : String → Option Token)
    (prove : TxLog → Except TransferError Proof)
    (tokenId sender receiver : String) (params : TransferParams) :
    Except TransferError Proof :=
  match getToken tokenId with
  | none => .error .tokenNotFound
  | some token =>
    match validate token sender receiver params with
    | .error e => .error (.validationFailed e)
    | .ok _ =>
      let txLog := initiateTransfer token sender receiver params
      prove txLog

/-! ### Circuit embeddings

All four circuit variants instantiate DEPTH = 4 (16 leaves).  Poseidon
of each arity is an abstract function parameter; Num2Bits and LessThan
are the circomlib templates, embedded by their defining constraints. -/

/-- One level of the in-circuit MerkleRoot template, after
substituting the assigned intermediate signals:
aux1 = (1-bit)*cur, aux2 = bit*sibling, left = aux1+aux2,
aux3 = (1-bit)*sibling, aux4 = bit*cur, right = aux3+aux4,
next = H(left, right). -/
def selStep (H2 : F → F → F) (b cur sib : F) : F :=
  H2 ((1 - b) * cur + b * sib) ((1 - b) * sib + b * cur)

/-- The root output of MerkleRoot(4) as a function of its inputs
(every internal signal of the template is assigned with a
double-arrow, so the output is a function of the inputs). -/
def merkleRootCircuit (H2 : F → F → F) (leaf : F)
    (siblings pathBits : Fin 4 → F) : F :=
  selStep H2 (pathBits 3)
    (selStep H2 (pathBits 2)
      (selStep H2 (pathBits 1)
        (selStep H2 (pathBits 0) leaf (siblings 0))
        (siblings 1))
      (siblings 2))
    (siblings 3)

/-- The input signals of the MerkleRoot(4) template. -/
structure MRInput where
  leaf : F
  siblings : Fin 4 → F
  pathBits : Fin 4 → F

/-- The internal and output signals of the MerkleRoot(4) template. -/
structure MRTrace where
  aux1 : Fin 4 → F
  aux2 : Fin 4 → F
  aux3 : Fin 4 → F
  aux4 : Fin 4 → F
  left : Fin 4 → F
  right : Fin 4 → F
  cur : Fin 5 → F
  root : F

/-- The constraint set of the MerkleRoot(4) template, signal for
signal: cur[0] = leaf; per level the four auxiliary products, the
left/right sums and the hash; root = cur[4].  Nothing here constrains
pathBits to be bits. -/
def MerkleRootConstraints (H2 : F → F → F) (inp : MRInput) (t : MRTrace) :
    Prop :=
  t.cur 0 = inp.leaf ∧
  (∀ i : Fin 4,
    t.aux1 i = (1 - inp.pathBits i) * t.cur i.castSucc ∧
    t.aux2 i = inp.pathBits i * inp.siblings i ∧
    t.left i = t.aux1 i + t.aux2 i ∧
    t.aux3 i = (1 - inp.pathBits i) * inp.siblings i ∧
    t.aux4 i = inp.pathBits i * t.cur i.castSucc ∧
    t.right i = t.aux3 i + t.aux4 i ∧
    t.cur i.succ = H2 (t.left i) (t.right i)) ∧
  t.root = t.cur 4

/-- The Num2Bits(n) template of circomlib: the input equals a weighted
sum of n signals, each constrained to be 0 or 1.  Satisfiable for a
given input exactly when the input fits in n bits. -/
def num2bitsSat (n : Nat) (x : F) : Prop :=
  ∃ b : Fin n → F, (∀ i, b i = 0 ∨ b i = 1) ∧
    x = ∑ i : Fin n, b i * (2 : F) ^ (i : Nat)

/-- The LessThan(n) template of circomlib: Num2Bits(n+1) applied to
in[0] + 2^n - in[1], with out = 1 - (top bit). -/
def lessThanOut (n : Nat) (x y out : F) : Prop :=
  ∃ b : Fin (n + 1) → F, (∀ i, b i = 0 ∨ b i = 1) ∧
    x + (2 : F) ^ n - y = (∑ i : Fin (n + 1), b i * (2 : F) ^ (i : Nat)) ∧
    out = 1 - b (Fin.last n)

/-- All input signals of the Transfer(4) circuit
(circuits/transfer.circom), private and public, plus the output
commitment signal. -/
structure TransferWitness where
  sender_pub : F
  receiver_pub : F
  sender_before : F
  receiver_before : F
  sender_nonce : F
  receiver_nonce : F
  sender_account : F
  receiver_account : F
  amount : F
  nonce : F
  root_before : F
  root_after : F
  tx_log_id : F
  sender_after_provided : F
  receiver_after_provided : F
  commitment : F
  s_siblings_before : Fin 4 → F
  s_pathBits_before : Fin 4 → F
  r_siblings_before : Fin 4 → F
  r_pathBits_before : Fin 4 → F
  s_siblings_after : Fin 4 → F
  s_pathBits_after : Fin 4 → F
  r_siblings_after : Fin 4 → F
  r_pathBits_after : Fin 4 → F
  tx_nonce : F
  tx_timestamp : F

/-- The full constraint set of the Transfer(4) circuit: before/after
Merkle membership for sender and receiver leaves, public/private
account equality, the balance update with the provided after-balances,
the state commitment, 64-bit range checks on sender_after,
receiver_after and amount, the LessThan comparison with out forced to
1, and the transaction-binding Poseidon(5) equality.  The public
signal nonce has no constraint in the source. -/
def TransferSat (H2 : F → F → F) (H3 : F → F → F → F)
    (H4 : F → F → F → F → F) (H5 : F → F → F → F → F → F)
    (w : TransferWitness) : Prop :=
  let hS0 := H3 w.sender_pub w.sender_before w.sender_nonce
  let hR0 := H3 w.receiver_pub w.receiver_before w.receiver_nonce
  let sender_after := w.sender_before - w.amount
  let receiver_after := w.receiver_before + w.amount
  merkleRootCircuit H2 hS0 w.s_siblings_before w.s_pathBits_before = w.root_before ∧
  merkleRootCircuit H2 hR0 w.r_siblings_before w.r_pathBits_before = w.root_before ∧
  w.sender_account = w.sender_pub ∧
  w.receiver_account = w.receiver_pub ∧
  sender_after = w.sender_after_provided ∧
  receiver_after = w.receiver_after_provided ∧
  w.commitment = H4 sender_after receiver_after w.sender_nonce w.receiver_nonce ∧
  num2bitsSat 64 sender_after ∧
  num2bitsSat 64 receiver_after ∧
  num2bitsSat 64 w.amount ∧
  (∃ geOut, lessThanOut 64 w.amount w.sender_before geOut ∧ geOut = 1) ∧
  merkleRootCircuit H2 (H3 w.sender_pub sender_after w.sender_nonce)
    w.s_siblings_after w.s_pathBits_after = w.root_after ∧
  merkleRootCircuit H2 (H3 w.receiver_pub receiver_after w.receiver_nonce)
    w.r_siblings_after w.r_pathBits_after = w.root_after ∧
  H5 w.sender_pub w.receiver_pub w.amount w.tx_nonce w.tx_timestamp = w.tx_log_id

/-- All input signals of the NFTTransfer(4) circuit
(circuits/nft_transfer.circom).  The source instantiates Poseidon(6)
for the binding hash but assigns only five of its inputs; the sixth,
left dangling in the source, is the tx_unassigned field. -/
structure NFTWitness where
  root_before : F
  root_after : F
  tx_log_id : F
  nft_id : F
  sender_pub : F
  receiver_pub : F
  sender_owns_nft_before : F
  receiver_owns_nft_before : F
  sender_nonce : F
  receiver_nonce : F
  s_siblings_before : Fin 4 → F
  s_pathBits_before : Fin 4 → F
  r_siblings_before : Fin 4 → F
  r_pathBits_before : Fin 4 → F
  s_siblings_after : Fin 4 → F
  s_pathBits_after : Fin 4 → F
  r_siblings_after : Fin 4 → F
  r_pathBits_after : Fin 4 → F
  tx_nonce : F
  tx_timestamp : F
  tx_unassigned : F

/-- The constraint set of the NFTTransfer(4) circuit: before/after
Merkle membership for 4-ary ownership leaves, the ownership-transfer
assignments sender_owns_nft_after = sender_owns_nft_before * 0 and
receiver_owns_nft_after = receiver_owns_nft_before + 1, the hard
equalities sender_owns_nft_before = 1, receiver_owns_nft_before = 0,
sender_owns_nft_after = 0, receiver_owns_nft_after = 1, the four
Num2Bits(1) binary checks, and the binding hash equality. -/
def NFTTransferSat (H2 : F → F → F) (H4 : F → F → F → F → F)
    (H6 : F → F → F → F → F → F → F) (w : NFTWitness) : Prop :=
  let hS0 := H4 w.sender_pub w.sender_owns_nft_before w.sender_nonce w.nft_id
  let hR0 := H4 w.receiver_pub w.receiver_owns_nft_before w.receiver_nonce w.nft_id
  let sender_owns_nft_after := w.sender_owns_nft_before * 0
  let receiver_owns_nft_after := w.receiver_owns_nft_before + 1
  merkleRootCircuit H2 hS0 w.s_siblings_before w.s_pathBits_before = w.root_before ∧
  merkleRootCircuit H2 hR0 w.r_siblings_before w.r_pathBits_before = w.root_before ∧
  w.sender_owns_nft_before = 1 ∧
  w.receiver_owns_nft_before = 0 ∧
  sender_owns_nft_after = 0 ∧
  receiver_owns_nft_after = 1 ∧
  num2bitsSat 1 w.sender_owns_nft_before ∧
  num2bitsSat 1 w.receiver_owns_nft_before ∧
  num2bitsSat 1 sender_owns_nft_after ∧
  num2bitsSat 1 receiver_owns_nft_after ∧
  merkleRootCircuit H2 (H4 w.sender_pub sender_owns_nft_after w.sender_nonce w.nft_id)
    w.s_siblings_after w.s_pathBits_after = w.root_after ∧
  merkleRootCircuit H2 (H4 w.receiver_pub receiver_owns_nft_after w.receiver_nonce w.nft_id)
    w.r_siblings_after w.r_pathBits_after = w.root_after ∧
  H6 w.sender_pub w.receiver_pub w.nft_id w.tx_nonce w.tx_timestamp w.tx_unassigned
    = w.tx_log_id

/-- createStateLeaf(pubKey, nonce, tokenId, state) of the generic
state transfer script: it builds inputs = [pubKey, nonce, tokenId,
...state] but then hashes only the first three entries with
pHash3(inputs[0], inputs[1], inputs[2]). -/
def createStateLeaf (H3 : F → F → F → F) (pubKey nonce tokenId : F)
    (state : List F) : F :=
  let inputs := pubKey :: nonce :: tokenId :: state
  H3 (inputs.getD 0 0) (inputs.getD 1 0) (inputs.getD 2 0)

/-- The AFTER-state leaves hS1/hR1 of the GenericStateTransfer
circuit: Poseidon(3) over (pub, nonce, token_id) only; the
state_after arrays are not inputs of this hash. -/
def genericAfterLeaf (H3 : F → F → F → F) (pub nonce token_id : F) : F :=
  H3 pub nonce token_id

/-! ### Concrete instantiations

The circuit theorems below hold for every hash function; the explicit
assignments that instantiate them use the following simple concrete
functions and records. -/

/-- A concrete 2-ary hash: constantly zero (so that two different
leaves can sit under the same all-zero inclusion paths). -/
def hz2 : F → F → F := fun _ _ => 0

/-- A concrete nonconstant 2-ary hash. -/
def hc2 : F → F → F := fun a b => 2 * a + b

/-- A concrete 3-ary hash. -/
def hc3 : F → F → F → F := fun a b c => a + 2 * b + 3 * c

/-- A concrete 4-ary hash. -/
def hc4 : F → F → F → F → F := fun a b c d => a + b + c + d

/-- A concrete 5-ary hash. -/
def hc5 : F → F → F → F → F → F := fun a b c d e => a + b + c + d + e

/-- A concrete 6-ary hash. -/
def hc6 : F → F → F → F → F → F → F := fun a b c d e x => a + b + c + d + e + x

/-- A fully explicit assignment of the Transfer(4) circuit with
amount = 0: sender balance 5, receiver balance 7, all-zero inclusion
paths under the constant-zero 2-ary hash. -/
def w0 : TransferWitness where
  sender_pub := 11
  receiver_pub := 22
  sender_before := 5
  receiver_before := 7
  sender_nonce := 1
  receiver_nonce := 2
  sender_account := 11
  receiver_account := 22
  amount := 0
  nonce := 0
  root_before := 0
  root_after := 0
  tx_log_id := hc5 11 22 0 1 1
  sender_after_provided := 5
  receiver_after_provided := 7
  commitment := hc4 5 7 1 2
  s_siblings_before := fun _ => 0
  s_pathBits_before := fun _ => 0
  r_siblings_before := fun _ => 0
  r_pathBits_before := fun _ => 0
  s_siblings_after := fun _ => 0
  s_pathBits_after := fun _ => 0
  r_siblings_after := fun _ => 0
  r_pathBits_after := fun _ => 0
  tx_nonce := 1
  tx_timestamp := 1

/-- A fully explicit assignment of the NFTTransfer(4) circuit:
sender owns the NFT, receiver does not, all-zero inclusion paths
under the constant-zero 2-ary hash. -/
def w1 : NFTWitness where
  root_before := 0
  root_after := 0
  tx_log_id := hc6 11 22 9 1 1 0
  nft_id := 9
  sender_pub := 11
  receiver_pub := 22
  sender_owns_nft_before := 1
  receiver_owns_nft_before := 0
  sender_nonce := 1
  receiver_nonce := 2
  s_siblings_before := fun _ => 0
  s_pathBits_before := fun _ => 0
  r_siblings_before := fun _ => 0
  r_pathBits_before := fun _ => 0
  s_siblings_after := fun _ => 0
  s_pathBits_after := fun _ => 0
  r_siblings_after := fun _ => 0
  r_pathBits_after := fun _ => 0
  tx_nonce := 1
  tx_timestamp := 1
  tx_unassigned := 0

/-- The NFT assignment in which the receiver already owns the NFT. -/
def w2 : NFTWitness := { w1 with receiver_owns_nft_before := 1 }

/-- The GOLD demo token: fungible with balance 1000. -/
def goldToken : Token where
  id := "GOLD"
  type := 0
  state := { state := 1000 }

/-- The SWORD demo token: an NFT currently owned (state = 1). -/
def swordToken : Token where
  id := "SWORD"
  type := 1
  state := { state := 1 }

/-- An NFT transfer request as the pipeline sees it, together with
the per-account ownership bits the circuit witness later carries.
TokenValidationService.validate receives only the token and the two
account ids; the ownership bits are invisible to it. -/
structure NftTransferRequest where
  token : Token
  sender : String
  receiver : String
  params : TransferParams
  senderOwnsBefore : F
  receiverOwnsBefore : F

/-- A concrete NFT transfer request whose receiver already owns the
NFT (receiverOwnsBefore = 1). -/
def swordRequest : NftTransferRequest where
  token := swordToken
  sender := "alice"
  receiver := "bob"
  params := {}
  senderOwnsBefore := 0
  receiverOwnsBefore := 1

/-- The chain of cur signals the MerkleRoot(4) template computes. -/
def mrCur (H2 : F → F → F) (inp : MRInput) : Fin 5 → F
  | ⟨0, _⟩ => inp.leaf
  | ⟨1, _⟩ => selStep H2 (inp.pathBits 0) inp.leaf (inp.siblings 0)
  | ⟨2, _⟩ => selStep H2 (inp.pathBits 1)
      (selStep H2 (inp.pathBits 0) inp.leaf (inp.siblings 0)) (inp.siblings 1)
  | ⟨3, _⟩ => selStep H2 (inp.pathBits 2)
      (selStep H2 (inp.pathBits 1)
        (selStep H2 (inp.pathBits 0) inp.leaf (inp.siblings 0)) (inp.siblings 1))
      (inp.siblings 2)
  | ⟨4, _⟩ => selStep H2 (inp.pathBits 3)
      (selStep H2 (inp.pathBits 2)
        (selStep H2 (inp.pathBits 1)
          (selStep H2 (inp.pathBits 0) inp.leaf (inp.siblings 0)) (inp.siblings 1))
        (inp.siblings 2))
      (inp.siblings 3)

/-- The unique signal trace of the MerkleRoot(4) template for given
inputs: every internal signal written out as the function of the
inputs that the double-arrow assignments force. -/
def mrTrace (H2 : F → F → F) (inp : MRInput) : MRTrace where
  aux1 := fun i => (1 - inp.pathBits i) * mrCur H2 inp i.castSucc
  aux2 := fun i => inp.pathBits i * inp.siblings i
  aux3 := fun i => (1 - inp.pathBits i) * inp.siblings i
  aux4 := fun i => inp.pathBits i * mrCur H2 inp i.castSucc
  left := fun i => (1 - inp.pathBits i) * mrCur H2 inp i.castSucc
    + inp.pathBits i * inp.siblings i
  right := fun i => (1 - inp.pathBits i) * inp.siblings i
    + inp.pathBits i * mrCur H2 inp i.castSucc
  cur := mrCur H2 inp
  root := mrCur H2 inp 4

/-! ## Lemmas about the accumulator mirror -/

theorem hashPairs_length (H : F → F → F) :
    ∀ l : List F, (hashPairs H l).length = l.length / 2
  | [] => by simp [hashPairs]
  | [a] => by simp [hashPairs]
  | a :: b :: t => by
    simp [hashPairs, hashPairs_length H t]
    omega

theorem hashPairs_getD (H : F → F → F) :
    ∀ (l : List F) (j : Nat), 2 * j + 1 < l.length →
      (hashPairs H l).getD j 0 = H (l.getD (2 * j) 0) (l.getD (2 * j + 1) 0)
  | [], j, h => by simp at h
  | [a], j, h => by simp at h
  | a :: b :: t, 0, _ => by simp [hashPairs]
  | a :: b :: t, j + 1, h => by
    have hlt : 2 * j + 1 < t.length := by simp at h; omega
    have ih := hashPairs_getD H t j hlt
    have e1 : 2 * (j + 1) = 2 * j + 1 + 1 := by omega
    have e2 : 2 * (j + 1) + 1 = 2 * j + 1 + 1 + 1 := by omega
    simp only [hashPairs, e1, e2, List.getD_cons_succ]
    exact ih

theorem hashPairs_set (H : F → F → F) :
    ∀ (l : List F) (i : Nat) (v : F), i < l.length →
      hashPairs H (l.set i v) =
        (hashPairs H l).set (i / 2)
          (H ((l.set i v).getD (2 * (i / 2)) 0)
             ((l.set i v).getD (2 * (i / 2) + 1) 0))
  | [], i, v, h => by simp at h
  | [a], 0, v, _ => by simp [hashPairs]
  | [a], i + 1, v, h => by simp at h
  | a :: b :: t, 0, v, _ => by simp [hashPairs]
  | a :: b :: t, 1, v, _ => by simp [hashPairs]
  | a :: b :: t, i + 2, v, h => by
    have hlt : i < t.length := by simp at h; omega
    have ih := hashPairs_set H t i v hlt
    have e0 : (i + 2) / 2 = i / 2 + 1 := by omega
    have e1 : 2 * ((i + 2) / 2) = 2 * (i / 2) + 1 + 1 := by omega
    rw [show (a :: b :: t).set (i + 2) v = a :: b :: t.set i v from rfl]
    rw [show hashPairs H (a :: b :: t.set i v) = H a b :: hashPairs H (t.set i v) from rfl]
    rw [show hashPairs H (a :: b :: t) = H a b :: hashPairs H t from rfl]
    rw [e1, e0, List.set_cons_succ, List.getD_cons_succ, List.getD_cons_succ,
      List.getD_cons_succ, List.getD_cons_succ, ih]

theorem updateLoop_buildLayers (H : F → F → F) :
    ∀ (d : Nat) (l : List F) (i : Nat) (v : F),
      l.length = 2 ^ (d + 1) → i < 2 ^ (d + 1) →
      updateLoop H (l.set i v) i (buildLayers H d (hashPairs H l)) =
        buildLayers H d (hashPairs H (l.set i v))
  | 0, l, i, v, hl, hi => by
    have hset := hashPairs_set H l i v (by omega)
    simp only [buildLayers, updateLoop, List.getD_eq_getElem?_getD]
    rw [← List.getD_eq_getElem?_getD, ← List.getD_eq_getElem?_getD, ← hset]
  | d + 1, l, i, v, hl, hi => by
    have hset := hashPairs_set H l i v (by omega)
    have hlen : (hashPairs H l).length = 2 ^ (d + 1) := by
      rw [hashPairs_length H l, hl]
      omega
    have hi2 : i / 2 < 2 ^ (d + 1) := by omega
    have ih := updateLoop_buildLayers H d (hashPairs H l) (i / 2)
      (H ((l.set i v).getD (2 * (i / 2)) 0) ((l.set i v).getD (2 * (i / 2) + 1) 0))
      hlen hi2
    simp only [buildLayers, updateLoop]
    rw [← hset] at ih ⊢
    rw [ih]

theorem updateLeaf_buildLayers (H : F → F → F) (d : Nat) (l : List F)
    (i : Nat) (v : F) (hl : l.length = 2 ^ d) (hi : i < 2 ^ d) :
    updateLeaf H (buildLayers H d l) i v = buildLayers H d (l.set i v) := by
  cases d with
  | zero => simp [buildLayers, updateLeaf, updateLoop]
  | succ d =>
    simp only [buildLayers, updateLeaf]
    rw [updateLoop_buildLayers H d l i v hl hi]

theorem buildLayers_ne_nil (H : F → F → F) (d : Nat) (l : List F) :
    buildLayers H d l ≠ [] := by
  cases d <;> simp [buildLayers]

theorem replay_buildLayers (H : F → F → F) :
    ∀ (d : Nat) (l : List F) (i : Nat), l.length = 2 ^ d → i < 2 ^ d →
      replayPath H (l.getD i 0) (merklePath (buildLayers H d l) i).1
        (merklePath (buildLayers H d l) i).2 = treeRoot (buildLayers H d l)
  | 0, l, i, hl, hi => by
    have hz : i = 0 := by omega
    subst hz
    simp [buildLayers, merklePath, replayPath, treeRoot]
  | d + 1, l, i, hl, hi => by
    have h2 : 2 ^ (d + 1) = 2 * 2 ^ d := by rw [pow_succ]; ring
    rw [h2] at hi hl
    have hL : (hashPairs H l).length = 2 ^ d := by
      rw [hashPairs_length H l, hl]
      omega
    have hi2 : i / 2 < 2 ^ d := by omega
    have ih := replay_buildLayers H d (hashPairs H l) (i / 2) hL hi2
    obtain ⟨m, tl, hB⟩ : ∃ m tl, buildLayers H d (hashPairs H l) = m :: tl := by
      cases hx : buildLayers H d (hashPairs H l) with
      | nil => exact absurd hx (buildLayers_ne_nil H d (hashPairs H l))
      | cons m tl => exact ⟨m, tl, rfl⟩
    have hroot : treeRoot (l :: m :: tl) = treeRoot (m :: tl) := by
      simp [treeRoot, List.getD_cons_succ]
    show replayPath H (l.getD i 0)
        (merklePath (l :: buildLayers H d (hashPairs H l)) i).1
        (merklePath (l :: buildLayers H d (hashPairs H l)) i).2
        = treeRoot (l :: buildLayers H d (hashPairs H l))
    rw [hB] at ih ⊢
    have hsib : merklePath (l :: m :: tl) i
        = (l.getD (if i % 2 = 1 then i - 1 else i + 1) 0
            :: (merklePath (m :: tl) (i / 2)).1,
           ((i % 2 : Nat) : F) :: (merklePath (m :: tl) (i / 2)).2) := rfl
    rw [hsib, hroot]
    rcases Nat.mod_two_eq_zero_or_one i with hpar | hpar
    · have hb : 2 * (i / 2) + 1 < l.length := by rw [hl]; omega
      have hcombine : (hashPairs H l).getD (i / 2) 0
          = H (l.getD i 0) (l.getD (i + 1) 0) := by
        rw [hashPairs_getD H l (i / 2) hb]
        have e1 : 2 * (i / 2) = i := by omega
        have e2 : 2 * (i / 2) + 1 = i + 1 := by omega
        rw [e2, e1]
      rw [hpar]
      show replayPath H
          (if ((0 : Nat) : F) = 0 then H (l.getD i 0) (l.getD (if 0 = 1 then i - 1 else i + 1) 0)
           else H (l.getD (if 0 = 1 then i - 1 else i + 1) 0) (l.getD i 0))
          (merklePath (m :: tl) (i / 2)).1 (merklePath (m :: tl) (i / 2)).2
          = treeRoot (m :: tl)
      rw [if_pos (show ((0 : Nat) : F) = 0 by norm_num),
        if_neg (show ¬ (0 = 1) by norm_num)]
      rw [← hcombine]
      exact ih
    · have hb : 2 * (i / 2) + 1 < l.length := by rw [hl]; omega
      have hcombine : (hashPairs H l).getD (i / 2) 0
          = H (l.getD (i - 1) 0) (l.getD i 0) := by
        rw [hashPairs_getD H l (i / 2) hb]
        have e1 : 2 * (i / 2) = i - 1 := by omega
        have e2 : 2 * (i / 2) + 1 = i := by omega
        rw [e2, e1]
      rw [hpar]
      show replayPath H
          (if ((1 : Nat) : F) = 0 then H (l.getD i 0) (l.getD (if 1 = 1 then i - 1 else i + 1) 0)
           else H (l.getD (if 1 = 1 then i - 1 else i + 1) 0) (l.getD i 0))
          (merklePath (m :: tl) (i / 2)).1 (merklePath (m :: tl) (i / 2)).2
          = treeRoot (m :: tl)
      rw [if_neg (by norm_num : ¬ ((1 : Nat) : F) = 0), if_pos rfl]
      rw [← hcombine]
      exact ih

theorem foldl_set_length :
    ∀ (us : List (Nat × F)) (l : List F),
      (us.foldl (fun acc u => acc.set u.1 u.2) l).length = l.length
  | [], _ => rfl
  | u :: us, l => by
    simp only [List.foldl_cons]
    rw [foldl_set_length us (l.set u.1 u.2), List.length_set]

theorem applyUpdates_aux (H : F → F → F) (depth : Nat) :
    ∀ (us : List (Nat × F)) (l : List F), (∀ u ∈ us, u.1 < 2 ^ depth) →
      l.length = 2 ^ depth →
      us.foldl (fun acc u => updateLeaf H acc u.1 u.2) (buildLayers H depth l)
        = buildLayers H depth (us.foldl (fun acc u => acc.set u.1 u.2) l)
  | [], _, _, _ => rfl
  | u :: us, l, hus, hl => by
    simp only [List.foldl_cons]
    rw [updateLeaf_buildLayers H depth l u.1 u.2 hl (hus u (by simp))]
    exact applyUpdates_aux H depth us (l.set u.1 u.2)
      (fun x hx => hus x (by simp [hx]))
      (by rw [List.length_set]; exact hl)

theorem applyUpdates_buildLayers (H : F → F → F) (depth : Nat)
    (us : List (Nat × F)) (hus : ∀ u ∈ us, u.1 < 2 ^ depth) :
    applyUpdates H depth us = buildLayers H depth (leavesAfter depth us) := by
  unfold applyUpdates buildEmptyTree leavesAfter
  exact applyUpdates_aux H depth us _ hus (by simp)

/-- C1.  Merkle round-trip: starting from buildEmptyTree(depth) and
applying any sequence of updateLeaf calls at indices below 2^depth,
for every index i below 2^depth, replaying the siblings and pathBits
returned by merklePath at i against the level-0 leaf at i — hashing
H(node, sibling) where the path bit is 0 and H(sibling, node) where
it is 1 — reproduces treeRoot of the accumulator exactly. -/
theorem merkle_round_trip (H : F → F → F) (depth : Nat)
    (us : List (Nat × F)) (hus : ∀ u ∈ us, u.1 < 2 ^ depth)
    (i : Nat) (hi : i < 2 ^ depth) :
    replayPath H (((applyUpdates H depth us).getD 0 []).getD i 0)
      (merklePath (applyUpdates H depth us) i).1
      (merklePath (applyUpdates H depth us) i).2
      = treeRoot (applyUpdates H depth us) := by
  rw [applyUpdates_buildLayers H depth us hus]
  have hlen : (leavesAfter depth us).length = 2 ^ depth := by
    unfold leavesAfter
    rw [foldl_set_length]
    simp
  have hhead : (buildLayers H depth (leavesAfter depth us)).getD 0 []
      = leavesAfter depth us := by
    cases depth <;> simp [buildLayers]
  rw [hhead]
  exact replay_buildLayers H depth (leavesAfter depth us) i hlen hi

/-- Witness for C1 at a concrete instance: depth 2, two updates, the
nonconstant hash hc2, index 1. -/
theorem merkle_round_trip_witness :
    (∀ u ∈ [((1 : Nat), (5 : F)), (2, 7)], u.1 < 2 ^ 2) ∧ 1 < 2 ^ 2 ∧
    replayPath hc2 (((applyUpdates hc2 2 [(1, 5), (2, 7)]).getD 0 []).getD 1 0)
      (merklePath (applyUpdates hc2 2 [(1, 5), (2, 7)]) 1).1
      (merklePath (applyUpdates hc2 2 [(1, 5), (2, 7)]) 1).2
      = treeRoot (applyUpdates hc2 2 [(1, 5), (2, 7)]) :=
  ⟨by decide, by decide, merkle_round_trip hc2 2 [(1, 5), (2, 7)] (by decide) 1 (by decide)⟩

theorem jsSet_oob (l : List (Option F)) (index : Nat) (v : F)
    (h : l.length ≤ index) :
    jsSet l index v = l ++ List.replicate (index - l.length) none ++ [some v] := by
  unfold jsSet
  rw [if_neg (by omega)]

theorem jsGet_jsSet_oob_at (l : List (Option F)) (index : Nat) (v : F)
    (h : l.length ≤ index) : jsGet (jsSet l index v) index = some v := by
  rw [jsSet_oob l index v h]
  unfold jsGet
  rw [List.append_assoc, List.getD_append_right _ _ _ _ h,
    List.getD_append_right _ _ _ _ (by simp)]
  simp

theorem jsGet_jsSet_oob_mid (l : List (Option F)) (index j : Nat) (v : F)
    (h : l.length ≤ j) (hj : j < index) : jsGet (jsSet l index v) j = none := by
  rw [jsSet_oob l index v (le_of_lt (lt_of_le_of_lt h hj))]
  unfold jsGet
  rw [List.append_assoc, List.getD_append_right _ _ _ _ h,
    List.getD_append _ _ _ _ (by simp; omega)]
  simp [List.getD_eq_getElem?_getD]

theorem jsGet_jsSet_oob_high (l : List (Option F)) (index j : Nat) (v : F)
    (h : l.length ≤ index) (hj : index < j) : jsGet (jsSet l index v) j = none := by
  rw [jsSet_oob l index v h]
  unfold jsGet
  exact List.getD_eq_default _ _ (by simp; omega)

theorem updateLeafE_oob (H : F → F → F) (l : List F) (index : Nat) (v : F)
    (hl : l.length = 16) (hge : 16 ≤ index) :
    updateLeafE H (toOptLayers (buildLayers H 4 l)) index v
      = Except.error JsError.typeError := by
  have hle : (l.map some).length ≤ index := by simp [hl]; omega
  have hph : pHash2E H (jsGet (jsSet (l.map some) index v) (2 * (index / 2)))
      (jsGet (jsSet (l.map some) index v) (2 * (index / 2) + 1))
      = Except.error JsError.typeError := by
    rcases Nat.mod_two_eq_zero_or_one index with hpar | hpar
    · have he : 2 * (index / 2) = index := by omega
      rw [he, jsGet_jsSet_oob_at _ _ _ hle,
        jsGet_jsSet_oob_high _ _ _ _ hle (by omega)]
      rfl
    · have he : 2 * (index / 2) = index - 1 := by omega
      rw [he, jsGet_jsSet_oob_mid _ _ _ _ (by simp [hl]; omega) (by omega)]
      rfl
  have hshape : toOptLayers (buildLayers H 4 l)
      = (l.map some) :: ((hashPairs H l).map some)
        :: ((hashPairs H (hashPairs H l)).map some)
        :: ((hashPairs H (hashPairs H (hashPairs H l))).map some)
        :: [(hashPairs H (hashPairs H (hashPairs H (hashPairs H l)))).map some] := rfl
  rw [hshape]
  simp only [updateLeafE, updateLoopE, hph]
  rfl

/-- C8 counterexample: calling updateLeaf on the depth-4 empty tree at
index 16 = 2^4 does not fail with IndexOutOfRange.  The level-0 write
succeeds (JS arrays extend on out-of-range assignment) and the first
ancestor recomputation then hashes an undefined slot, so the call
surfaces a type error instead. -/
theorem updateLeaf_oob_not_index_error :
    updateLeafE hc2 (toOptLayers (buildEmptyTree hc2 4)) 16 1
      = Except.error JsError.typeError ∧
    updateLeafE hc2 (toOptLayers (buildEmptyTree hc2 4)) 16 1
      ≠ Except.error JsError.indexOutOfRange := by
  have h : updateLeafE hc2 (toOptLayers (buildEmptyTree hc2 4)) 16 1
      = Except.error JsError.typeError :=
    updateLeafE_oob hc2 (List.replicate 16 0) 16 1 (by simp) (by norm_num)
  exact ⟨h, by rw [h]; simp⟩

/-- C8 amended.  updateLeaf performs no index bound check: on a
depth-4 accumulator an index at or above 2^4 is not rejected with
IndexOutOfRange — the out-of-range level-0 write succeeds and the
ancestor loop fails with a type error on the undefined sibling slot —
while for every index below 2^4 updateLeaf replaces level0[index] and
recomputes every ancestor up to the root (its result is exactly the
accumulator rebuilt from the updated leaf row). -/
theorem updateLeaf_no_bounds_check (H : F → F → F) (l : List F)
    (index : Nat) (v : F) (hl : l.length = 2 ^ 4) :
    (2 ^ 4 ≤ index →
      updateLeafE H (toOptLayers (buildLayers H 4 l)) index v
        = Except.error JsError.typeError) ∧
    (index < 2 ^ 4 →
      updateLeaf H (buildLayers H 4 l) index v = buildLayers H 4 (l.set index v)) := by
  constructor
  · intro hge
    exact updateLeafE_oob H l index v (by simpa using hl) (by simpa using hge)
  · intro hlt
    exact updateLeaf_buildLayers H 4 l index v hl hlt

/-- Witness for C8's amended theorem at a concrete instance. -/
theorem updateLeaf_no_bounds_check_witness :
    ((2 : Nat) ^ 4 ≤ 20 →
      updateLeafE hc2 (toOptLayers (buildLayers hc2 4 (List.replicate 16 0))) 20 3
        = Except.error JsError.typeError) ∧
    (20 < (2 : Nat) ^ 4 →
      updateLeaf hc2 (buildLayers hc2 4 (List.replicate 16 0)) 20 3
        = buildLayers hc2 4 ((List.replicate 16 0).set 20 3)) :=
  updateLeaf_no_bounds_check hc2 (List.replicate 16 0) 20 3 (by simp)

/-! ## Lemmas about the circomlib range-check templates -/

theorem sum_two_pow_range : ∀ n : Nat, (∑ i ∈ Finset.range n, 2 ^ i) = 2 ^ n - 1
  | 0 => rfl
  | n + 1 => by
    rw [Finset.sum_range_succ, sum_two_pow_range n]
    have h1 : 0 < 2 ^ n := pow_pos (by norm_num) n
    have h2 : 2 ^ (n + 1) = 2 * 2 ^ n := by rw [pow_succ]; ring
    omega

theorem natBits_lt (n : Nat) (c : Fin n → Nat) (hc : ∀ i, c i ≤ 1) :
    (∑ i : Fin n, c i * 2 ^ (i : Nat)) < 2 ^ n := by
  have h1 : (∑ i : Fin n, c i * 2 ^ (i : Nat)) ≤ ∑ i : Fin n, 2 ^ (i : Nat) := by
    refine Finset.sum_le_sum fun i _ => ?_
    calc c i * 2 ^ (i : Nat) ≤ 1 * 2 ^ (i : Nat) :=
          Nat.mul_le_mul_right _ (hc i)
      _ = 2 ^ (i : Nat) := one_mul _
  rw [Fin.sum_univ_eq_sum_range (fun i => 2 ^ i) n, sum_two_pow_range n] at h1
  have h2 : 0 < 2 ^ n := pow_pos (by norm_num) n
  omega

theorem cast_bits_sum (n : Nat) (b : Fin n → F) (hb : ∀ i, b i = 0 ∨ b i = 1) :
    ∃ m : Nat, m < 2 ^ n ∧ ((m : F) = ∑ i : Fin n, b i * 2 ^ (i : Nat)) := by
  refine ⟨∑ i : Fin n, (if b i = 1 then 1 else 0) * 2 ^ (i : Nat), ?_, ?_⟩
  · exact natBits_lt n _ (fun i => by split <;> simp)
  · rw [Nat.cast_sum]
    refine Finset.sum_congr rfl fun i _ => ?_
    rcases hb i with h | h <;> simp [h]

theorem exists_bits : ∀ (n : Nat) (m : Nat), m < 2 ^ n →
    ∃ b : Fin n → F, (∀ i, b i = 0 ∨ b i = 1) ∧
      ((m : F) = ∑ i : Fin n, b i * 2 ^ (i : Nat))
  | 0, m, hm => by
    have hz : m = 0 := by omega
    subst hz
    exact ⟨fun i => i.elim0, fun i => i.elim0, by simp⟩
  | n + 1, m, hm => by
    have h2 : 2 ^ (n + 1) = 2 * 2 ^ n := by rw [pow_succ]; ring
    obtain ⟨b', hb', hs'⟩ := exists_bits n (m / 2) (by omega)
    refine ⟨Fin.cases ((m % 2 : Nat) : F) b', ?_, ?_⟩
    · intro i
      induction i using Fin.cases with
      | zero =>
        rcases Nat.mod_two_eq_zero_or_one m with h | h <;> simp [h]
      | succ j => simpa using hb' j
    · rw [Fin.sum_univ_succ]
      simp only [Fin.cases_zero, Fin.cases_succ, Fin.val_zero, pow_zero, mul_one,
        Fin.val_succ]
      have hterm : ∀ j : Fin n, b' j * 2 ^ ((j : Nat) + 1) = b' j * 2 ^ (j : Nat) * 2 := by
        intro j
        rw [pow_succ]
        ring
      rw [Finset.sum_congr rfl (fun j _ => hterm j), ← Finset.sum_mul, ← hs']
      calc (m : F) = ((2 * (m / 2) + m % 2 : Nat) : F) := by rw [Nat.div_add_mod]
        _ = ((m % 2 : Nat) : F) + ((m / 2 : Nat) : F) * 2 := by push_cast; ring

theorem num2bitsSat_iff (n : Nat) (x : F) (hn : 2 ^ n < p) :
    num2bitsSat n x ↔ x.val < 2 ^ n := by
  constructor
  · rintro ⟨b, hb, hx⟩
    obtain ⟨m, hm, hcast⟩ := cast_bits_sum n b hb
    rw [← hcast] at hx
    rw [hx, ZMod.val_natCast_of_lt (lt_trans hm hn)]
    exact hm
  · intro hlt
    obtain ⟨b, hb, hs⟩ := exists_bits n x.val hlt
    refine ⟨b, hb, ?_⟩
    rw [← hs, ZMod.natCast_rightInverse x]

theorem lessThan64_iff (x y : F) (hx : x.val < 2 ^ 64) (hy : y.val < 2 ^ 64) :
    (∃ o, lessThanOut 64 x y o ∧ o = 1) ↔ x.val < y.val := by
  have hp64 : (2 : Nat) ^ 64 < p := by norm_num [p]
  have hp65 : (2 : Nat) ^ 64 + 1 < p := by norm_num [p]
  have hz : x + (2 : F) ^ 64 - y = ((x.val + 2 ^ 64 - y.val : Nat) : F) := by
    have hle : y.val ≤ x.val + 2 ^ 64 := by omega
    rw [Nat.cast_sub hle, Nat.cast_add, Nat.cast_pow, Nat.cast_ofNat,
      ZMod.natCast_rightInverse x, ZMod.natCast_rightInverse y]
  have hvalz : (x + (2 : F) ^ 64 - y).val = x.val + 2 ^ 64 - y.val := by
    rw [hz]
    refine ZMod.val_natCast_of_lt ?_
    have hb : x.val + 2 ^ 64 - y.val < 2 ^ 64 + 2 ^ 64 := by omega
    have hp2 : (2 : Nat) ^ 64 + 2 ^ 64 ≤ p := by norm_num [p]
    omega
  constructor
  · rintro ⟨o, ⟨b, hb, hsum, ho⟩, ho1⟩
    have hlast : b (Fin.last 64) = 0 := by
      linear_combination ho - ho1
    have hsum64 : x + (2 : F) ^ 64 - y = ∑ i : Fin 64, b i.castSucc * 2 ^ (i : Nat) := by
      rw [hsum, Fin.sum_univ_castSucc, hlast]
      simp
    have hn2b : num2bitsSat 64 (x + (2 : F) ^ 64 - y) :=
      ⟨fun i => b i.castSucc, fun i => hb _, hsum64⟩
    have hv := (num2bitsSat_iff 64 _ hp64).1 hn2b
    rw [hvalz] at hv
    omega
  · intro hlt
    have hn2b : num2bitsSat 64 (x + (2 : F) ^ 64 - y) := by
      refine (num2bitsSat_iff 64 _ hp64).2 ?_
      rw [hvalz]
      omega
    obtain ⟨b, hb, hsum⟩ := hn2b
    refine ⟨1, ⟨Fin.snoc b 0, ?_, ?_, ?_⟩, rfl⟩
    · intro i
      induction i using Fin.lastCases with
      | last => simp
      | cast j => simpa using hb j
    · rw [Fin.sum_univ_castSucc]
      simp only [Fin.snoc_castSucc, Fin.snoc_last, zero_mul, add_zero]
      exact hsum
    · rw [Fin.snoc_last]
      ring

/-! ## The MerkleRoot template (C9, C10) -/

theorem selStep_zero (H2 : F → F → F) (c s : F) : selStep H2 0 c s = H2 c s := by
  unfold selStep
  congr 1 <;> ring

theorem selStep_one (H2 : F → F → F) (c s : F) : selStep H2 1 c s = H2 s c := by
  unfold selStep
  congr 1 <;> ring

/-- C9.  Circuit/mirror Merkle equivalence: for every leaf, every
depth-4 siblings vector and every pathBits vector with all entries in
{0,1}, the in-circuit MerkleRoot template — with its quadratic
decomposition left = (1-bit)*cur + bit*sibling and
right = (1-bit)*sibling + bit*cur through the aux intermediate
signals — outputs the same root as the off-circuit combine rule of
merklePath and updateLeaf: H(cur, sibling) when the bit is 0 and
H(sibling, cur) when the bit is 1. -/
theorem merkleRootCircuit_matches_mirror (H2 : F → F → F) (leaf : F)
    (siblings pathBits : Fin 4 → F)
    (hb : ∀ i, pathBits i = 0 ∨ pathBits i = 1) :
    merkleRootCircuit H2 leaf siblings pathBits
      = replayPath H2 leaf [siblings 0, siblings 1, siblings 2, siblings 3]
          [pathBits 0, pathBits 1, pathBits 2, pathBits 3] := by
  rcases hb 0 with h0 | h0 <;> rcases hb 1 with h1 | h1 <;>
    rcases hb 2 with h2 | h2 <;> rcases hb 3 with h3 | h3 <;>
    simp [merkleRootCircuit, replayPath, h0, h1, h2, h3, selStep_zero, selStep_one,
      one_ne_zero]

/-- Witness for C9 at a concrete instance. -/
theorem merkleRootCircuit_matches_mirror_witness :
    (∀ i, (![0, 1, 0, 1] : Fin 4 → F) i = 0 ∨ (![0, 1, 0, 1] : Fin 4 → F) i = 1) ∧
    merkleRootCircuit hc2 3 ![5, 6, 7, 8] ![0, 1, 0, 1]
      = replayPath hc2 3 [5, 6, 7, 8] [0, 1, 0, 1] := by
  have hb : ∀ i, (![0, 1, 0, 1] : Fin 4 → F) i = 0 ∨ (![0, 1, 0, 1] : Fin 4 → F) i = 1 := by
    intro i
    fin_cases i <;> simp
  refine ⟨hb, ?_⟩
  have h := merkleRootCircuit_matches_mirror hc2 3 ![5, 6, 7, 8] ![0, 1, 0, 1] hb
  simpa using h

/-- C10.  The MerkleRoot template never constrains its pathBits inputs
to be bits: for every assignment of leaf, siblings and arbitrary field
pathBits (values outside {0,1} included), the template's constraints
are satisfiable, with every internal signal — in particular the root
output — uniquely determined. -/
theorem merkleRoot_pathBits_unconstrained (H2 : F → F → F) (inp : MRInput) :
    ∃! t : MRTrace, MerkleRootConstraints H2 inp t := by
  refine ⟨mrTrace H2 inp, ?_, ?_⟩
  · refine ⟨rfl, ?_, rfl⟩
    intro i
    fin_cases i <;> exact ⟨rfl, rfl, rfl, rfl, rfl, rfl, rfl⟩
  · rintro t ⟨h0, hstep, hroot⟩
    have step : ∀ i : Fin 4, t.cur i.castSucc = mrCur H2 inp i.castSucc →
        t.cur i.succ = mrCur H2 inp i.succ := by
      intro i hi
      obtain ⟨a1, a2, hl, a3, a4, hr, hc⟩ := hstep i
      rw [hc, hl, hr, a1, a2, a3, a4, hi]
      fin_cases i <;> rfl
    have e0 : t.cur 0 = mrCur H2 inp 0 := h0
    have e1 : t.cur 1 = mrCur H2 inp 1 := step 0 e0
    have e2 : t.cur 2 = mrCur H2 inp 2 := step 1 e1
    have e3 : t.cur 3 = mrCur H2 inp 3 := step 2 e2
    have e4 : t.cur 4 = mrCur H2 inp 4 := step 3 e3
    have hcur : t.cur = mrCur H2 inp := by
      funext i
      fin_cases i
      · exact e0
      · exact e1
      · exact e2
      · exact e3
      · exact e4
    rcases t with ⟨aux1, aux2, aux3, aux4, left, right, cur, root⟩
    simp only at hstep hcur hroot e4
    subst hcur
    simp only [mrTrace, MRTrace.mk.injEq]
    refine ⟨?_, ?_, ?_, ?_, ?_, ?_, ?_⟩
    · funext i
      exact (hstep i).1
    · funext i
      exact (hstep i).2.1
    · funext i
      exact (hstep i).2.2.2.1
    · funext i
      exact (hstep i).2.2.2.2.1
    · funext i
      rw [(hstep i).2.2.1, (hstep i).1, (hstep i).2.1]
    · funext i
      rw [(hstep i).2.2.2.2.2.1, (hstep i).2.2.2.1, (hstep i).2.2.2.2.1]
    · exact ⟨trivial, by rw [hroot]⟩

/-! ## Small field-value helpers -/

theorem natCast_ne_zero_of (n : Nat) (h0 : 0 < n) (hp : n < p) :
    ((n : Nat) : F) ≠ 0 := by
  intro h
  have hv := ZMod.val_natCast_of_lt (n := p) hp
  rw [h, ZMod.val_zero] at hv
  omega

theorem num2bits1_zero : num2bitsSat 1 0 :=
  ⟨fun _ => 0, fun _ => Or.inl rfl, by simp⟩

theorem num2bits1_one : num2bitsSat 1 1 :=
  ⟨fun _ => 1, fun _ => Or.inr rfl, by simp⟩

/-! ## NFT circuit claims (C5, C7) -/

/-- C5.  NFT exclusivity: in every satisfying assignment of the
NFTTransfer circuit, the derived after-signals
sender_owns_nft_after = sender_owns_nft_before * 0 and
receiver_owns_nft_after = receiver_owns_nft_before + 1 sum to 1, and
sender_owns_nft_after never equals sender_owns_nft_before. -/
theorem nft_exclusivity (H2 : F → F → F) (H4 : F → F → F → F → F)
    (H6 : F → F → F → F → F → F → F) (w : NFTWitness)
    (hw : NFTTransferSat H2 H4 H6 w) :
    w.sender_owns_nft_before * 0 + (w.receiver_owns_nft_before + 1) = 1 ∧
    w.sender_owns_nft_before * 0 ≠ w.sender_owns_nft_before := by
  obtain ⟨_, _, hsb, hrb, _⟩ := hw
  constructor
  · rw [hsb, hrb]
    norm_num
  · rw [hsb]
    norm_num

theorem nftSat_w1 : NFTTransferSat hz2 hc4 hc6 w1 := by
  refine ⟨rfl, rfl, rfl, rfl, by norm_num, show (0 : F) + 1 = 1 by norm_num,
    ?_, ?_, ?_, ?_, rfl, rfl, rfl⟩
  · exact num2bits1_one
  · exact num2bits1_zero
  · show num2bitsSat 1 ((1 : F) * 0)
    rw [mul_zero]
    exact num2bits1_zero
  · show num2bitsSat 1 ((0 : F) + 1)
    rw [zero_add]
    exact num2bits1_one

/-- Witness for C5: a fully explicit satisfying NFT assignment,
evaluated through the theorem. -/
theorem nft_exclusivity_witness :
    NFTTransferSat hz2 hc4 hc6 w1 ∧
    (w1.sender_owns_nft_before * 0 + (w1.receiver_owns_nft_before + 1) = 1 ∧
     w1.sender_owns_nft_before * 0 ≠ w1.sender_owns_nft_before) :=
  ⟨nftSat_w1, nft_exclusivity hz2 hc4 hc6 w1 nftSat_w1⟩

/-- C7 counterexample: a concrete NFT transfer request whose receiver
already owns the NFT (receiverOwnsBefore = 1) passes
TokenValidationService.validate — validation does not fail, because
validate never examines receiver ownership. -/
theorem nft_validate_ignores_receiver_ownership :
    swordRequest.receiverOwnsBefore = 1 ∧
    validate swordRequest.token swordRequest.sender swordRequest.receiver
      swordRequest.params = Except.ok true := by
  constructor
  · rfl
  · rfl

/-- C7 amended.  The validation step never examines receiver
ownership: every NFT transfer request whose token is marked owned
(state = 1) passes validate, whatever the receiver's prior ownership
bit is; a receiver that already owns the NFT is rejected only inside
the NFTTransfer circuit, whose constraint
receiver_owns_nft_before === 0 makes the circuit unsatisfiable. -/
theorem nft_receiver_owned_rejected_only_in_circuit :
    (∀ r : NftTransferRequest, r.token.type = TOKEN_TYPES_NFT →
      r.token.state.state = 1 → r.sender ≠ "" → r.receiver ≠ "" →
      r.sender ≠ r.receiver →
      validate r.token r.sender r.receiver r.params = Except.ok true) ∧
    (∀ (H2 : F → F → F) (H4 : F → F → F → F → F)
      (H6 : F → F → F → F → F → F → F) (w : NFTWitness),
      w.receiver_owns_nft_before = 1 → ¬ NFTTransferSat H2 H4 H6 w) := by
  constructor
  · intro r hty hown hs hr hsr
    unfold validate
    rw [if_neg (by simp [hs, hr]), if_neg hsr, hty]
    show (if r.token.state.state ≠ 1 then Except.error ValidationError.nftNotOwned
      else Except.ok true) = Except.ok true
    rw [if_neg (by simp [hown])]
  · rintro H2 H4 H6 w hro ⟨_, _, _, hrb, _⟩
    rw [hro] at hrb
    exact one_ne_zero hrb

/-- Witness for C7's amended theorem at concrete inputs. -/
theorem nft_receiver_owned_rejected_only_in_circuit_witness :
    validate swordRequest.token swordRequest.sender swordRequest.receiver
      swordRequest.params = Except.ok true ∧
    ¬ NFTTransferSat hz2 hc4 hc6 w2 :=
  ⟨nft_receiver_owned_rejected_only_in_circuit.1 swordRequest rfl rfl
      (by decide) (by decide) (by decide),
    nft_receiver_owned_rejected_only_in_circuit.2 hz2 hc4 hc6 w2 rfl⟩

/-! ## Validation pipeline (C6) -/

/-- C6.  Negative-balance rejection at validation: a fungible transfer
whose amount exceeds the token's available balance fails inside
TokenValidationService.validate — the pipeline returns a
validationFailed error, and its outcome is independent of the proving
function, which is therefore never consulted (no circuit or proving
work is attempted). -/
theorem insufficient_balance_rejected_at_validation
    {Proof : Type} (getToken : String → Option Token)
    (prove prove2 : TxLog → Except TransferError Proof)
    (tokenId sender receiver : String) (params : TransferParams)
    (token : Token) (hget : getToken tokenId = some token)
    (hty : token.type = TOKEN_TYPES_FUNGIBLE)
    (hamt : token.state.state < params.amount.getD 0) :
    (∃ e, transferP getToken prove tokenId sender receiver params
        = Except.error (TransferError.validationFailed e)) ∧
    transferP getToken prove tokenId sender receiver params
      = transferP getToken prove2 tokenId sender receiver params := by
  have hval : ∃ e, validate token sender receiver params = Except.error e := by
    unfold validate
    by_cases h1 : sender = "" ∨ receiver = ""
    · rw [if_pos h1]
      exact ⟨_, rfl⟩
    · rw [if_neg h1]
      by_cases h2 : sender = receiver
      · rw [if_pos h2]
        exact ⟨_, rfl⟩
      · rw [if_neg h2, hty]
        show ∃ e, (if params.amount.getD 0 ≤ 0
            then (Except.error ValidationError.nonPositiveAmount : Except ValidationError Bool)
            else if token.state.state < params.amount.getD 0
              then Except.error ValidationError.insufficientBalance
              else Except.ok true) = Except.error e
        by_cases h3 : params.amount.getD 0 ≤ 0
        · rw [if_pos h3]
          exact ⟨_, rfl⟩
        · rw [if_neg h3, if_pos hamt]
          exact ⟨_, rfl⟩
  obtain ⟨e, he⟩ := hval
  constructor
  · exact ⟨e, by simp only [transferP, hget, he]⟩
  · simp only [transferP, hget, he]

/-- Witness for C6 at the spec's concrete scenario: amount 600000
against a balance of 1000 on the fungible GOLD token. -/
theorem insufficient_balance_rejected_at_validation_witness :
    (∃ e, transferP (fun _ => some goldToken) (fun _ => Except.ok ())
        "GOLD" "alice" "bob" { amount := some 600000 }
        = Except.error (TransferError.validationFailed e)) ∧
    transferP (fun _ => some goldToken) (fun _ => Except.ok ())
        "GOLD" "alice" "bob" { amount := some 600000 }
      = transferP (fun _ => some goldToken)
          (fun _ => Except.error TransferError.proofFailed)
          "GOLD" "alice" "bob" { amount := some 600000 } :=
  insufficient_balance_rejected_at_validation (fun _ => some goldToken)
    (fun _ => Except.ok ()) (fun _ => Except.error TransferError.proofFailed)
    "GOLD" "alice" "bob" { amount := some 600000 } goldToken rfl rfl (by decide)

/-! ## The Transfer circuit (C2, C4) -/

theorem val_five : (5 : F).val = 5 := by
  rw [show (5 : F) = ((5 : Nat) : F) by norm_num]
  exact ZMod.val_natCast_of_lt (by norm_num [p])

theorem val_seven : (7 : F).val = 7 := by
  rw [show (7 : F) = ((7 : Nat) : F) by norm_num]
  exact ZMod.val_natCast_of_lt (by norm_num [p])

theorem transferSat_w0 : TransferSat hz2 hc3 hc4 hc5 w0 := by
  have hp64 : (2 : Nat) ^ 64 < p := by norm_num [p]
  have h5 : w0.sender_before.val = 5 := val_five
  have h0 : w0.amount.val = 0 := ZMod.val_zero
  refine ⟨rfl, rfl, rfl, rfl, show (5 : F) - 0 = 5 by norm_num,
    show (7 : F) + 0 = 7 by norm_num,
    show (hc4 5 7 1 2 : F) = hc4 ((5 : F) - 0) ((7 : F) + 0) 1 2 by norm_num [hc4],
    ?_, ?_, ?_, ?_, rfl, rfl, rfl⟩
  · show num2bitsSat 64 ((5 : F) - 0)
    rw [show (5 : F) - 0 = 5 by norm_num]
    refine (num2bitsSat_iff 64 5 hp64).2 ?_
    rw [val_five]
    norm_num
  · show num2bitsSat 64 ((7 : F) + 0)
    rw [show (7 : F) + 0 = 7 by norm_num]
    refine (num2bitsSat_iff 64 7 hp64).2 ?_
    rw [val_seven]
    norm_num
  · refine (num2bitsSat_iff 64 w0.amount hp64).2 ?_
    rw [h0]
    norm_num
  · refine (lessThan64_iff w0.amount w0.sender_before ?_ ?_).2 ?_
    · rw [h0]
      norm_num
    · rw [h5]
      norm_num
    · rw [h0, h5]
      norm_num

/-- C2 counterexample: a fully explicit satisfying assignment of the
Transfer circuit with amount = 0 and a positive sender balance.  The
claim's precondition amount > 0 is violated, yet the circuit is
satisfiable, so violating the claimed preconditions does not make the
circuit unsatisfiable. -/
theorem transfer_zero_amount_satisfiable :
    TransferSat hz2 hc3 hc4 hc5 w0 ∧ w0.amount = 0 ∧ w0.sender_before ≠ 0 := by
  refine ⟨transferSat_w0, rfl, ?_⟩
  show (5 : F) ≠ 0
  rw [show (5 : F) = ((5 : Nat) : F) by norm_num]
  exact natCast_ne_zero_of 5 (by norm_num) (by norm_num [p])

/-- C2 amended.  For a fungible transfer witness whose leaves,
inclusion paths and bookkeeping signals are consistent with the
public inputs and whose before-balances are 64-bit values, the
Transfer circuit is satisfiable exactly when amount < senderBefore
strictly — amount = senderBefore is rejected and amount = 0 is
accepted — and the receiver's post-balance fits in 64 bits (the
sender's post-balance and the amount then fit automatically).  There
is no amount > 0 constraint in the circuit. -/
theorem transfer_sat_iff_strict (H2 : F → F → F) (H3 : F → F → F → F)
    (H4 : F → F → F → F → F) (H5 : F → F → F → F → F → F)
    (w : TransferWitness)
    (hsb : w.sender_before.val < 2 ^ 64)
    (hrb : w.receiver_before.val < 2 ^ 64)
    (hsmb : merkleRootCircuit H2 (H3 w.sender_pub w.sender_before w.sender_nonce)
      w.s_siblings_before w.s_pathBits_before = w.root_before)
    (hrmb : merkleRootCircuit H2 (H3 w.receiver_pub w.receiver_before w.receiver_nonce)
      w.r_siblings_before w.r_pathBits_before = w.root_before)
    (hsma : merkleRootCircuit H2 (H3 w.sender_pub (w.sender_before - w.amount) w.sender_nonce)
      w.s_siblings_after w.s_pathBits_after = w.root_after)
    (hrma : merkleRootCircuit H2 (H3 w.receiver_pub (w.receiver_before + w.amount) w.receiver_nonce)
      w.r_siblings_after w.r_pathBits_after = w.root_after)
    (hacc1 : w.sender_account = w.sender_pub)
    (hacc2 : w.receiver_account = w.receiver_pub)
    (hprov1 : w.sender_after_provided = w.sender_before - w.amount)
    (hprov2 : w.receiver_after_provided = w.receiver_before + w.amount)
    (hcomm : w.commitment = H4 (w.sender_before - w.amount)
      (w.receiver_before + w.amount) w.sender_nonce w.receiver_nonce)
    (htx : H5 w.sender_pub w.receiver_pub w.amount w.tx_nonce w.tx_timestamp
      = w.tx_log_id) :
    TransferSat H2 H3 H4 H5 w ↔
      (w.amount.val < w.sender_before.val ∧
       w.receiver_before.val + w.amount.val < 2 ^ 64) := by
  have hp64 : (2 : Nat) ^ 64 < p := by norm_num [p]
  have hp2 : (2 : Nat) ^ 64 + 2 ^ 64 ≤ p := by norm_num [p]
  constructor
  · rintro ⟨_, _, _, _, _, _, _, _, hbits_ra, hbits_a, ⟨o, hlt, ho⟩, _, _, _⟩
    have hA : w.amount.val < 2 ^ 64 := (num2bitsSat_iff 64 _ hp64).1 hbits_a
    have hAS : w.amount.val < w.sender_before.val :=
      (lessThan64_iff w.amount w.sender_before hA hsb).1 ⟨o, hlt, ho⟩
    have hRA : (w.receiver_before + w.amount).val < 2 ^ 64 :=
      (num2bitsSat_iff 64 _ hp64).1 hbits_ra
    have hsum : (w.receiver_before + w.amount).val
        = w.receiver_before.val + w.amount.val :=
      ZMod.val_add_of_lt (by omega)
    omega
  · rintro ⟨hAS, hRA⟩
    have hA : w.amount.val < 2 ^ 64 := by omega
    have hsum : (w.receiver_before + w.amount).val
        = w.receiver_before.val + w.amount.val :=
      ZMod.val_add_of_lt (by omega)
    have hsub : (w.sender_before - w.amount).val
        = w.sender_before.val - w.amount.val :=
      ZMod.val_sub (by omega)
    refine ⟨hsmb, hrmb, hacc1, hacc2, hprov1.symm, hprov2.symm, hcomm,
      ?_, ?_, ?_, ?_, hsma, hrma, htx⟩
    · refine (num2bitsSat_iff 64 _ hp64).2 ?_
      rw [hsub]
      omega
    · refine (num2bitsSat_iff 64 _ hp64).2 ?_
      rw [hsum]
      omega
    · exact (num2bitsSat_iff 64 _ hp64).2 hA
    · exact (lessThan64_iff w.amount w.sender_before hA hsb).2 hAS

/-- Witness for C2's amended theorem: the iff evaluated on the
explicit assignment w0 (whose sides are both true: 0 < 5 and
7 + 0 < 2^64). -/
theorem transfer_sat_iff_strict_witness :
    TransferSat hz2 hc3 hc4 hc5 w0 ↔
      (w0.amount.val < w0.sender_before.val ∧
       w0.receiver_before.val + w0.amount.val < 2 ^ 64) :=
  transfer_sat_iff_strict hz2 hc3 hc4 hc5 w0
    (by rw [show w0.sender_before.val = 5 from val_five]; norm_num)
    (by rw [show w0.receiver_before.val = 7 from val_seven]; norm_num)
    rfl rfl rfl rfl rfl rfl (show (5 : F) = 5 - 0 by norm_num)
    (show (7 : F) = 7 + 0 by norm_num)
    (show (hc4 5 7 1 2 : F) = hc4 ((5 : F) - 0) ((7 : F) + 0) 1 2 by norm_num [hc4]) rfl

/-- C4.  Transaction-binding commitment: in every satisfying
assignment of the Transfer circuit the public tx_log_id equals the
5-ary Poseidon hash of (sender_pub, receiver_pub, amount, tx_nonce,
tx_timestamp); any second satisfying assignment with the same five
folded fields carries the same tx_log_id (one binding commitment per
proof), and replacing tx_log_id by any other value makes the circuit
unsatisfiable (checking against a different txLogId is rejected). -/
theorem transfer_tx_binding (H2 : F → F → F) (H3 : F → F → F → F)
    (H4 : F → F → F → F → F) (H5 : F → F → F → F → F → F)
    (w : TransferWitness) (hw : TransferSat H2 H3 H4 H5 w) :
    w.tx_log_id = H5 w.sender_pub w.receiver_pub w.amount w.tx_nonce w.tx_timestamp ∧
    (∀ w' : TransferWitness, TransferSat H2 H3 H4 H5 w' →
      w'.sender_pub = w.sender_pub → w'.receiver_pub = w.receiver_pub →
      w'.amount = w.amount → w'.tx_nonce = w.tx_nonce →
      w'.tx_timestamp = w.tx_timestamp → w'.tx_log_id = w.tx_log_id) ∧
    (∀ t : F, t ≠ H5 w.sender_pub w.receiver_pub w.amount w.tx_nonce w.tx_timestamp →
      ¬ TransferSat H2 H3 H4 H5 { w with tx_log_id := t }) := by
  obtain ⟨_, _, _, _, _, _, _, _, _, _, _, _, _, htx⟩ := hw
  refine ⟨htx.symm, ?_, ?_⟩
  · rintro w' ⟨_, _, _, _, _, _, _, _, _, _, _, _, _, htx'⟩ h1 h2 h3 h4 h5
    rw [← htx', ← htx, h1, h2, h3, h4, h5]
  · rintro t ht ⟨_, _, _, _, _, _, _, _, _, _, _, _, _, htx2⟩
    exact ht htx2.symm

/-- Witness for C4: the binding conclusions evaluated on the explicit
satisfying assignment w0. -/
theorem transfer_tx_binding_witness :
    w0.tx_log_id = hc5 w0.sender_pub w0.receiver_pub w0.amount w0.tx_nonce w0.tx_timestamp ∧
    (∀ w' : TransferWitness, TransferSat hz2 hc3 hc4 hc5 w' →
      w'.sender_pub = w0.sender_pub → w'.receiver_pub = w0.receiver_pub →
      w'.amount = w0.amount → w'.tx_nonce = w0.tx_nonce →
      w'.tx_timestamp = w0.tx_timestamp → w'.tx_log_id = w0.tx_log_id) ∧
    (∀ t : F, t ≠ hc5 w0.sender_pub w0.receiver_pub w0.amount w0.tx_nonce w0.tx_timestamp →
      ¬ TransferSat hz2 hc3 hc4 hc5 { w0 with tx_log_id := t }) :=
  transfer_tx_binding hz2 hc3 hc4 hc5 w0 transferSat_w0

/-! ## Generic state transfer after-leaf (C3) -/

/-- C3 (code_bug evidence).  The generic state transfer after-leaf
ignores the updated state vector entirely: createStateLeaf hashes only
(pubKey, nonce, tokenId), so two transitions ending in different
updated states commit to the identical leaf — and the in-circuit
after-leaf of GenericStateTransfer coincides with its before-leaf.
Evaluated at the concrete failing input: state [1, 5, 100, 3] versus
the zeroed state [0, 0, 0, 0]. -/
theorem createStateLeaf_ignores_state :
    (∀ (H3 : F → F → F → F) (pubKey nonce tokenId : F) (s s' : List F),
      createStateLeaf H3 pubKey nonce tokenId s
        = createStateLeaf H3 pubKey nonce tokenId s') ∧
    createStateLeaf hc3 22 42 7 [1, 5, 100, 3]
      = createStateLeaf hc3 22 42 7 [0, 0, 0, 0] ∧
    (∀ (H3 : F → F → F → F) (pub nonce token_id : F),
      genericAfterLeaf H3 pub nonce token_id
        = createStateLeaf H3 pub nonce token_id []) :=
  ⟨fun _ _ _ _ _ _ => rfl, rfl, fun _ _ _ _ => rfl⟩
